import Mathlib

/-!
Shallow embedding of the performance-rating distribution analytics engine
(`src/reports/distribution_calculator.py`) together with the entity model it
reads (`src/models/*.py`).

Modelling conventions:
* A database snapshot is a `List Associate` (with each associate's rating
  already resolved, mirroring the eager `joinedload`) plus a
  `List DistributionBucket` (fetched ordered by `sort_order`) and, for the
  validator, a `List PerformanceRating`.
* Python `float` percentages are modelled as `Rat` (exact arithmetic).
* A Python counting dict (`d[k] = d.get(k, 0) + 1` in a loop) is modelled by
  `countDict`: its key set is the set of keys that occur and the value at a
  key is the number of occurrences, which is exactly the dict the loop builds
  (Python additionally fixes a key order, which no property here depends on).
* Attribute access `assoc.performance_rating.description` on an associate that
  is known to hold a rating is modelled by `ratingDesc`, which returns `""` in
  the (unreachable at those call sites) unrated case.
-/

structure AssociateLevel where
  id : Nat
  description : String
  level_indicator : Nat
  deriving DecidableEq

structure PerformanceRating where
  id : Nat
  description : String
  level_indicator : Nat
  excluded_from_distribution : Bool
  distribution_bucket_id : Option Nat
  deriving DecidableEq

structure DistributionBucket where
  id : Nat
  name : String
  description : Option String
  min_percentage : Rat
  max_percentage : Rat
  sort_order : Nat
  deriving DecidableEq

structure Associate where
  id : Nat
  first_name : String
  last_name : String
  associate_level : AssociateLevel
  manager_id : Option Nat
  performance_rating : Option PerformanceRating
  is_people_manager : Bool
  deriving DecidableEq

def Associate.full_name (a : Associate) : String :=
  a.first_name ++ " " ++ a.last_name

/-- The four mutually exclusive categories of the categorization stage. -/
inductive Category where
  | root
  | unrated
  | excluded
  | included
  deriving DecidableEq

/-- The if/elif chain of `calculate_comprehensive_distribution` that sends each
associate to exactly one of the four lists (root > unrated > excluded >
included, in that evaluation order). -/
def categorize (a : Associate) : Category :=
  match a.manager_id, a.performance_rating with
  | none, _ => Category.root
  | some _, none => Category.unrated
  | some _, some r =>
      if r.excluded_from_distribution then Category.excluded else Category.included

/-- The description attribute of an associate's (resolved) rating. -/
def ratingDesc (a : Associate) : String :=
  match a.performance_rating with
  | some r => r.description
  | none => ""

/-- Model of a Python dict built by counting occurrences of string keys. -/
def countDict (ks : List String) : List (String × Nat) :=
  ks.dedup.map (fun k => (k, ks.count k))

/-- Model of `d.get(k, d0)` on an association list. -/
def dget {α : Type} (d : List (String × α)) (k : String) (d0 : α) : α :=
  match d.find? (fun p => p.fst == k) with
  | some p => p.snd
  | none => d0

structure BucketDistribution where
  bucket_id : Nat
  bucket_name : String
  bucket_description : Option String
  min_percentage : Rat
  max_percentage : Rat
  sort_order : Nat
  count : Nat
  percentage : Rat
  rating_breakdown : List (String × Nat)
  is_below_minimum : Bool
  is_above_maximum : Bool
  is_within_target : Bool
  deriving DecidableEq

structure DistributionResult where
  total_associates : Nat
  top_level_manager_count : Nat
  excluded_rating_count : Nat
  included_in_distribution_count : Nat
  unrated_count : Nat
  rating_counts : List (String × Nat)
  rating_percentages : List (String × Rat)
  excluded_rating_counts : List (String × Nat)
  bucket_distributions : List BucketDistribution
  deriving DecidableEq

/-- Embedding of `calculate_bucket_distributions(db, included_associates, included_count)`:
for each bucket (already ordered by sort order) count the included associates
whose rating points at the bucket, build the per-rating breakdown, compute the
zero-guarded percentage and the three status booleans. -/
def calculate_bucket_distributions (buckets : List DistributionBucket)
    (included_associates : List Associate) (included_count : Nat) :
    List BucketDistribution :=
  buckets.map (fun bucket =>
    let in_bucket := included_associates.filter (fun a =>
      match a.performance_rating with
      | some r => r.distribution_bucket_id == some bucket.id
      | none => false)
    let bucket_count := in_bucket.length
    let rating_breakdown := countDict (in_bucket.map ratingDesc)
    let percentage : Rat :=
      if included_count > 0 then (bucket_count : Rat) / (included_count : Rat) * 100 else 0
    let is_below_minimum := decide (percentage < bucket.min_percentage)
    let is_above_maximum := decide (percentage > bucket.max_percentage)
    let is_within_target := !(is_below_minimum || is_above_maximum)
    { bucket_id := bucket.id
      bucket_name := bucket.name
      bucket_description := bucket.description
      min_percentage := bucket.min_percentage
      max_percentage := bucket.max_percentage
      sort_order := bucket.sort_order
      count := bucket_count
      percentage := percentage
      rating_breakdown := rating_breakdown
      is_below_minimum := is_below_minimum
      is_above_maximum := is_above_maximum
      is_within_target := is_within_target })

/-- Embedding of `calculate_comprehensive_distribution(db)`: categorize every associate with
the root > unrated > excluded > included chain, then compute counts, the
zero-guarded rating percentages, the excluded-rating counts and the bucket
distributions over the included population. -/
def calculate_comprehensive_distribution (associates : List Associate)
    (buckets : List DistributionBucket) : DistributionResult :=
  let top_level_managers := associates.filter (fun a => categorize a == Category.root)
  let unrated_associates := associates.filter (fun a => categorize a == Category.unrated)
  let excluded_associates := associates.filter (fun a => categorize a == Category.excluded)
  let included_associates := associates.filter (fun a => categorize a == Category.included)
  let total_count := associates.length
  let included_count := included_associates.length
  let rating_counts := countDict (included_associates.map ratingDesc)
  let rating_percentages : List (String × Rat) :=
    if included_count > 0 then
      rating_counts.map (fun p => (p.fst, (p.snd : Rat) / (included_count : Rat) * 100))
    else []
  let excluded_rating_counts := countDict (excluded_associates.map ratingDesc)
  { total_associates := total_count
    top_level_manager_count := top_level_managers.length
    excluded_rating_count := excluded_associates.length
    included_in_distribution_count := included_count
    unrated_count := unrated_associates.length
    rating_counts := rating_counts
    rating_percentages := rating_percentages
    excluded_rating_counts := excluded_rating_counts
    bucket_distributions :=
      calculate_bucket_distributions buckets included_associates included_count }

/-- Embedding of `select(Associate).where(Associate.id == i)` followed by `scalar_one()`:
`none` models the exception raised when no row matches. -/
def lookupAssociate (associates : List Associate) (i : Nat) : Option Associate :=
  associates.find? (fun a => a.id == i)

/-- The while loop of `calculate_hierarchy_level`, made total with explicit
fuel; `none` is returned when the fuel runs out (the Python loop running
forever) or when a manager reference fails to resolve (`scalar_one` raising). -/
def hierarchyLevelAux (associates : List Associate) :
    Nat → Associate → Nat → List Nat → Option Nat
  | 0, _, _, _ => none
  | fuel + 1, current, level, seen_ids =>
    match current.manager_id with
    | none => some level
    | some mid =>
      if mid ∈ seen_ids then some level
      else
        match lookupAssociate associates mid with
        | none => none
        | some mgr => hierarchyLevelAux associates fuel mgr (level + 1) (current.id :: seen_ids)

/-- Embedding of `calculate_hierarchy_level(db, associate)`: walk manager references upward,
counting hops, with the visited-id cycle guard.  The fuel `2 * n + 3` is an
upper bound on the number of loop iterations proved sufficient below. -/
def calculate_hierarchy_level (associates : List Associate) (associate : Associate) :
    Option Nat :=
  hierarchyLevelAux associates (2 * associates.length + 3) associate 0 []

structure ManagerDistributionDetail where
  manager_id : Nat
  manager_name : String
  manager_level : String
  hierarchy_level : Nat
  total_direct_reports : Nat
  rated_reports : Nat
  unrated_reports : Nat
  excluded_reports : Nat
  included_reports : Nat
  rating_counts : List (String × Nat)
  rating_percentages : List (String × Rat)
  bucket_counts : List (String × Nat)
  bucket_percentages : List (String × Rat)
  buckets_out_of_range : List String
  deriving DecidableEq

/-- One level entry of the `hierarchy_summaries` dict. -/
structure HierarchySummary where
  hierarchy_level : Nat
  manager_count : Nat
  total_included_reports : Nat
  rating_counts : List (String × Nat)
  rating_percentages : List (String × Rat)
  bucket_counts : List (String × Nat)
  bucket_percentages : List (String × Rat)
  deriving DecidableEq

structure ManagerDistributionReport where
  total_managers : Nat
  total_associates_under_managers : Nat
  manager_details : List ManagerDistributionDetail
  hierarchy_summaries : List (Nat × HierarchySummary)
  deriving DecidableEq

/-- The SQLAlchemy `direct_reports` relationship: associates whose
`manager_id` equals this manager's id. -/
def directReports (associates : List Associate) (m : Associate) : List Associate :=
  associates.filter (fun a => a.manager_id == some m.id)

/-- Lookup in the dict comprehension that keys the bucket list by bucket id;
a dict comprehension keeps the last entry on a duplicate key, hence the
reverse. -/
def bucketMapFind (buckets : List DistributionBucket) (i : Nat) :
    Option DistributionBucket :=
  buckets.reverse.find? (fun b => b.id == i)

/-- The bucket name a direct report contributes to, mirroring
`bucket_id = report.performance_rating.distribution_bucket_id` followed by
`if bucket_id and bucket_id in bucket_map` (Python truthiness: `None` and `0`
both fail the first test). -/
def reportBucketName (buckets : List DistributionBucket) (r : Associate) :
    Option String :=
  match r.performance_rating with
  | none => none
  | some p =>
    match p.distribution_bucket_id with
    | none => none
    | some bid =>
      if bid ≠ 0 then (bucketMapFind buckets bid).map (fun b => b.name) else none

/-- Whether a direct report lands in the `unrated` / `excluded` / (`rated` and
`included`) branch of the per-report if/elif chain. -/
def reportIncluded (r : Associate) : Bool :=
  match r.performance_rating with
  | none => false
  | some p => !p.excluded_from_distribution

/-- The `unrated_reports` list of the per-manager loop. -/
def unratedReportsOf (associates : List Associate) (manager : Associate) :
    List Associate :=
  (directReports associates manager).filter (fun r => r.performance_rating.isNone)

/-- The `excluded_reports` list of the per-manager loop. -/
def excludedReportsOf (associates : List Associate) (manager : Associate) :
    List Associate :=
  (directReports associates manager).filter (fun r =>
    match r.performance_rating with
    | none => false
    | some p => p.excluded_from_distribution)

/-- The `included_reports` list of the per-manager loop (the `rated_reports`
list is built by the very same branch of the if/elif chain). -/
def includedReportsOf (associates : List Associate) (manager : Associate) :
    List Associate :=
  (directReports associates manager).filter reportIncluded

/-- The per-manager `rating_counts` dict. -/
def mgrRatingCounts (associates : List Associate) (manager : Associate) :
    List (String × Nat) :=
  countDict ((includedReportsOf associates manager).map ratingDesc)

/-- The per-manager `rating_percentages` dict (built only when the manager has
included reports). -/
def mgrRatingPercentages (associates : List Associate) (manager : Associate) :
    List (String × Rat) :=
  if (includedReportsOf associates manager).isEmpty then []
  else (mgrRatingCounts associates manager).map (fun p =>
    (p.fst, (p.snd : Rat) / ((includedReportsOf associates manager).length : Rat) * 100))

/-- The per-manager `bucket_counts` dict, keyed by bucket name. -/
def mgrBucketCounts (associates : List Associate) (buckets : List DistributionBucket)
    (manager : Associate) : List (String × Nat) :=
  countDict ((includedReportsOf associates manager).filterMap (reportBucketName buckets))

/-- The per-manager `bucket_percentages` dict (one entry per bucket, built
only when the manager has included reports). -/
def mgrBucketPercentages (associates : List Associate)
    (buckets : List DistributionBucket) (manager : Associate) : List (String × Rat) :=
  if (includedReportsOf associates manager).isEmpty then []
  else buckets.map (fun b =>
    (b.name, ((dget (mgrBucketCounts associates buckets manager) b.name 0 : Nat) : Rat)
      / ((includedReportsOf associates manager).length : Rat) * 100))

/-- The per-manager `buckets_out_of_range` list: a bucket is flagged when its
percentage is strictly outside the target range and its count is nonzero. -/
def mgrBucketsOutOfRange (associates : List Associate)
    (buckets : List DistributionBucket) (manager : Associate) : List String :=
  if (includedReportsOf associates manager).isEmpty then []
  else buckets.filterMap (fun b =>
    if (((dget (mgrBucketCounts associates buckets manager) b.name 0 : Nat) : Rat)
          / ((includedReportsOf associates manager).length : Rat) * 100 < b.min_percentage
        ∨ ((dget (mgrBucketCounts associates buckets manager) b.name 0 : Nat) : Rat)
          / ((includedReportsOf associates manager).length : Rat) * 100 > b.max_percentage)
      ∧ dget (mgrBucketCounts associates buckets manager) b.name 0 > 0 then
      some b.name
    else none)

/-- The body of the per-manager loop of `calculate_manager_distributions`. -/
def managerDetail (associates : List Associate) (buckets : List DistributionBucket)
    (manager : Associate) : ManagerDistributionDetail :=
  { manager_id := manager.id
    manager_name := manager.full_name
    manager_level := manager.associate_level.description
    hierarchy_level := (calculate_hierarchy_level associates manager).getD 0
    total_direct_reports := (directReports associates manager).length
    rated_reports := (includedReportsOf associates manager).length
    unrated_reports := (unratedReportsOf associates manager).length
    excluded_reports := (excludedReportsOf associates manager).length
    included_reports := (includedReportsOf associates manager).length
    rating_counts := mgrRatingCounts associates manager
    rating_percentages := mgrRatingPercentages associates manager
    bucket_counts := mgrBucketCounts associates buckets manager
    bucket_percentages := mgrBucketPercentages associates buckets manager
    buckets_out_of_range := mgrBucketsOutOfRange associates buckets manager }

/-- Embedding of the dict update that adds `c` at key `k` in place
(or appending a fresh key at the end, as a Python dict does). -/
def dictInsertAdd (acc : List (String × Nat)) (k : String) (c : Nat) :
    List (String × Nat) :=
  if acc.any (fun p => p.fst == k) then
    acc.map (fun p => if p.fst == k then (p.fst, p.snd + c) else p)
  else acc ++ [(k, c)]

/-- Fold one manager's counting dict into a level aggregate. -/
def dictAddAll (acc : List (String × Nat)) (d : List (String × Nat)) :
    List (String × Nat) :=
  d.foldl (fun acc p => dictInsertAdd acc p.fst p.snd) acc

/-- The level-summary block of `calculate_manager_distributions`, applied to
the details of the managers grouped at one hierarchy level. -/
def levelSummary (level : Nat) (details : List ManagerDistributionDetail) :
    HierarchySummary :=
  let total_included : Nat := (details.map (fun d => d.included_reports)).sum
  let agg_rating_counts := details.foldl (fun acc d => dictAddAll acc d.rating_counts) []
  let agg_rating_percentages : List (String × Rat) :=
    if total_included > 0 then
      agg_rating_counts.map (fun p => (p.fst, (p.snd : Rat) / (total_included : Rat) * 100))
    else []
  let agg_bucket_counts := details.foldl (fun acc d => dictAddAll acc d.bucket_counts) []
  let agg_bucket_percentages : List (String × Rat) :=
    if total_included > 0 then
      agg_bucket_counts.map (fun p => (p.fst, (p.snd : Rat) / (total_included : Rat) * 100))
    else []
  { hierarchy_level := level
    manager_count := details.length
    total_included_reports := total_included
    rating_counts := agg_rating_counts
    rating_percentages := agg_rating_percentages
    bucket_counts := agg_bucket_counts
    bucket_percentages := agg_bucket_percentages }

/-- Embedding of `calculate_manager_distributions(db)`: per-manager details for every
people manager, then per-hierarchy-level aggregate summaries.  The
`hierarchy_data` grouping dict is modelled by filtering the detail list per
occurring level (same groups, membership-invariant order). -/
def calculate_manager_distributions (associates : List Associate)
    (buckets : List DistributionBucket) : ManagerDistributionReport :=
  let managers := associates.filter (fun a => a.is_people_manager)
  let manager_details := managers.map (managerDetail associates buckets)
  let levels := (manager_details.map (fun d => d.hierarchy_level)).dedup
  let hierarchy_summaries := levels.map (fun l =>
    (l, levelSummary l (manager_details.filter (fun d => d.hierarchy_level == l))))
  { total_managers := manager_details.length
    total_associates_under_managers :=
      (manager_details.map (fun d => d.total_direct_reports)).sum
    manager_details := manager_details
    hierarchy_summaries := hierarchy_summaries }

/-- Embedding of `get_total_headcount(db)`: count of associates holding any rating (no
root or exclusion filtering). -/
def get_total_headcount (associates : List Associate) : Nat :=
  (associates.filter (fun a => a.performance_rating.isSome)).length

/-- Embedding of `get_associates_by_rating(db)`: rated associates grouped by rating
description (again with no root or exclusion filtering). -/
def get_associates_by_rating (associates : List Associate) : List (String × Nat) :=
  countDict ((associates.filter (fun a => a.performance_rating.isSome)).map ratingDesc)

/-- Embedding of `calculate_rating_distribution_percentages(db)`: legacy organization-wide
rating percentages, dividing by `get_total_headcount`. -/
def calculate_rating_distribution_percentages (associates : List Associate) :
    List (String × Rat) :=
  let total := get_total_headcount associates
  if total = 0 then []
  else
    (get_associates_by_rating associates).map (fun p =>
      (p.fst, (p.snd : Rat) / (total : Rat) * 100))

/-- Embedding of `get_unassigned_ratings(db)`: non-excluded ratings with no bucket. -/
def get_unassigned_ratings (ratings : List PerformanceRating) :
    List PerformanceRating :=
  ratings.filter (fun r =>
    r.distribution_bucket_id.isNone && !r.excluded_from_distribution)

/-- The validator's messages, abstracted from the formatted strings the code
appends (one constructor per distinct `append` site). -/
inductive ValidationMessage where
  | unassignedRatings (names : List String)
  | minSumExceeds100
  | maxSumBelow100
  | rigidTargets
  deriving DecidableEq

/-- Embedding of `validate_bucket_configuration(db)`: returns `(errors, warnings)`. -/
def validate_bucket_configuration (ratings : List PerformanceRating)
    (buckets : List DistributionBucket) :
    List ValidationMessage × List ValidationMessage :=
  let unassigned := get_unassigned_ratings ratings
  let coverage_warnings : List ValidationMessage :=
    if unassigned.isEmpty then []
    else [ValidationMessage.unassignedRatings (unassigned.map (fun r => r.description))]
  if buckets.isEmpty then ([], coverage_warnings)
  else
    let total_min := (buckets.map (fun b => b.min_percentage)).sum
    let total_max := (buckets.map (fun b => b.max_percentage)).sum
    let errors :=
      (if total_min > 100 then [ValidationMessage.minSumExceeds100] else []) ++
      (if total_max < 100 then [ValidationMessage.maxSumBelow100] else [])
    let rigidity_warnings : List ValidationMessage :=
      if total_min < 100 ∧ 100 < total_max then []
      else if total_min = 100 ∧ total_max = 100 then [ValidationMessage.rigidTargets]
      else []
    (errors, coverage_warnings ++ rigidity_warnings)

/-! Concrete snapshots used to instantiate the theorems below. -/

def exLevel : AssociateLevel := ⟨1, "Level", 1⟩

def exMeets : PerformanceRating := ⟨1, "Meets", 2, false, some 1⟩

def exExceeds : PerformanceRating := ⟨2, "Exceeds", 3, false, some 1⟩

def exBucketAll : DistributionBucket := ⟨1, "All", none, 0, 100, 0⟩

def exRoot : Associate := ⟨1, "Ada", "Root", exLevel, none, none, true⟩

def exMgr : Associate := ⟨2, "Max", "Manager", exLevel, some 1, some exMeets, true⟩

def exPeer : Associate := ⟨3, "Pia", "Peer", exLevel, some 1, some exExceeds, false⟩

def exSnap : List Associate := [exRoot, exMgr, exPeer]

def exRootRated : Associate := ⟨1, "Ada", "Root", exLevel, none, some exMeets, true⟩

def exReport : Associate := ⟨2, "Bo", "Report", exLevel, some 1, some exExceeds, false⟩

def exLegacySnap : List Associate := [exRootRated, exReport]

def exSelfCycle : Associate := ⟨1, "Sol", "Loop", exLevel, some 1, none, true⟩

def exCycleA : Associate := ⟨1, "Ann", "Alpha", exLevel, some 2, none, true⟩

def exCycleB : Associate := ⟨2, "Ben", "Beta", exLevel, some 1, none, true⟩

def exRigidX : DistributionBucket := ⟨1, "X", none, 60, 60, 0⟩

def exRigidY : DistributionBucket := ⟨2, "Y", none, 50, 70, 1⟩

def exManagerDetails : List ManagerDistributionDetail :=
  (exSnap.filter (fun a => a.is_people_manager)).map (managerDetail exSnap [exBucketAll])

def exDetailsAtZero : List ManagerDistributionDetail :=
  exManagerDetails.filter (fun d => d.hierarchy_level == 0)

/-! Helper lemmas. -/

/-- The four category filters of the categorization loop cover every associate
exactly once, so their lengths sum to the population size. -/
lemma categorize_filter_length_sum (l : List Associate) :
    (l.filter (fun a => categorize a == Category.root)).length
      + (l.filter (fun a => categorize a == Category.unrated)).length
      + (l.filter (fun a => categorize a == Category.excluded)).length
      + (l.filter (fun a => categorize a == Category.included)).length
      = l.length := by
  induction l with
  | nil => rfl
  | cons a t ih =>
    cases h : categorize a <;>
      simp only [List.filter_cons, h, List.length_cons] <;>
      simp <;> omega

/-- Each associate is assigned one of the four categories. -/
lemma categorize_cases (a : Associate) :
    categorize a = Category.root ∨ categorize a = Category.unrated
      ∨ categorize a = Category.excluded ∨ categorize a = Category.included := by
  cases h : categorize a <;> simp

/-- Root precedence: no manager reference always gives category root. -/
lemma categorize_of_no_manager (a : Associate) (h : a.manager_id = none) :
    categorize a = Category.root := by
  unfold categorize
  rw [h]

lemma comp_total (associates : List Associate) (buckets : List DistributionBucket) :
    (calculate_comprehensive_distribution associates buckets).total_associates
      = associates.length := rfl

lemma comp_root_count (associates : List Associate) (buckets : List DistributionBucket) :
    (calculate_comprehensive_distribution associates buckets).top_level_manager_count
      = (associates.filter (fun a => categorize a == Category.root)).length := rfl

lemma comp_unrated_count (associates : List Associate) (buckets : List DistributionBucket) :
    (calculate_comprehensive_distribution associates buckets).unrated_count
      = (associates.filter (fun a => categorize a == Category.unrated)).length := rfl

lemma comp_excluded_count (associates : List Associate) (buckets : List DistributionBucket) :
    (calculate_comprehensive_distribution associates buckets).excluded_rating_count
      = (associates.filter (fun a => categorize a == Category.excluded)).length := rfl

lemma comp_included_count (associates : List Associate) (buckets : List DistributionBucket) :
    (calculate_comprehensive_distribution associates buckets).included_in_distribution_count
      = (associates.filter (fun a => categorize a == Category.included)).length := rfl

lemma comp_rating_counts (associates : List Associate) (buckets : List DistributionBucket) :
    (calculate_comprehensive_distribution associates buckets).rating_counts
      = countDict ((associates.filter (fun a => categorize a == Category.included)).map
          ratingDesc) := rfl

lemma comp_rating_percentages (associates : List Associate)
    (buckets : List DistributionBucket) :
    (calculate_comprehensive_distribution associates buckets).rating_percentages
      = (if (associates.filter (fun a => categorize a == Category.included)).length > 0 then
          (countDict ((associates.filter (fun a => categorize a == Category.included)).map
              ratingDesc)).map
            (fun p => (p.fst,
              (p.snd : Rat)
                / ((associates.filter (fun a => categorize a == Category.included)).length : Rat)
                * 100))
        else []) := rfl

lemma comp_bucket_distributions (associates : List Associate)
    (buckets : List DistributionBucket) :
    (calculate_comprehensive_distribution associates buckets).bucket_distributions
      = calculate_bucket_distributions buckets
          (associates.filter (fun a => categorize a == Category.included))
          (associates.filter (fun a => categorize a == Category.included)).length := rfl

/-- Summing `c / N * 100` over a list of counts gives the summed count over
the same denominator. -/
lemma sum_map_div_mul (l : List Nat) (N : Rat) :
    (l.map (fun c : Nat => (c : Rat) / N * 100)).sum = (l.sum : Rat) / N * 100 := by
  induction l with
  | nil => simp
  | cons c t ih =>
    simp only [List.map_cons, List.sum_cons, ih]
    push_cast
    ring

/-- The values of a counting dict sum to the length of the key list. -/
lemma countDict_snd_sum (ks : List String) :
    ((countDict ks).map Prod.snd).sum = ks.length := by
  unfold countDict
  rw [List.map_map]
  exact List.sum_map_count_dedup_eq_length ks

/-- Sum of the zero-guard-free percentage map over a counting dict. -/
lemma countDict_percentage_sum (ks : List String) (N : Nat) :
    (((countDict ks).map
          (fun p : String × Nat => (p.fst, (p.snd : Rat) / (N : Rat) * 100))).map
        Prod.snd).sum
      = (ks.length : Rat) / (N : Rat) * 100 := by
  unfold countDict
  rw [List.map_map, List.map_map]
  have h1 : ((Prod.snd ∘ fun p : String × Nat => (p.fst, (p.snd : Rat) / (N : Rat) * 100))
        ∘ fun k => (k, ks.count k))
      = (fun c : Nat => (c : Rat) / (N : Rat) * 100) ∘ fun k => ks.count k := rfl
  rw [h1, ← List.map_map, sum_map_div_mul, List.sum_map_count_dedup_eq_length]

/-! C1 -/

/-- C1: `calculate_comprehensive_distribution` assigns each person exactly one
of the four categories root / unrated / excluded / included, the four counts
it returns sum to `total_associates`, and a person with no manager reference
is categorized root (hence never included), even when holding an assigned,
non-excluded rating. -/
theorem comprehensive_distribution_partitions (associates : List Associate)
    (buckets : List DistributionBucket) :
    ((calculate_comprehensive_distribution associates buckets).top_level_manager_count
        + (calculate_comprehensive_distribution associates buckets).unrated_count
        + (calculate_comprehensive_distribution associates buckets).excluded_rating_count
        + (calculate_comprehensive_distribution associates buckets).included_in_distribution_count
      = (calculate_comprehensive_distribution associates buckets).total_associates)
    ∧ (∀ a : Associate,
        categorize a = Category.root ∨ categorize a = Category.unrated
          ∨ categorize a = Category.excluded ∨ categorize a = Category.included)
    ∧ (∀ a : Associate, a.manager_id = none →
        (∀ r : PerformanceRating, a.performance_rating = some r →
          r.excluded_from_distribution = false →
          categorize a = Category.root ∧ categorize a ≠ Category.included)) := by
  refine ⟨?_, categorize_cases, ?_⟩
  · rw [comp_total, comp_root_count, comp_unrated_count, comp_excluded_count,
      comp_included_count]
    exact categorize_filter_length_sum associates
  · intro a h r _ _
    refine ⟨categorize_of_no_manager a h, ?_⟩
    rw [categorize_of_no_manager a h]
    simp

/-- Witness for C1 at the concrete three-person snapshot, applied to its rated
root variant. -/
theorem comprehensive_distribution_partitions_witness :
    categorize exRootRated = Category.root ∧ categorize exRootRated ≠ Category.included :=
  (comprehensive_distribution_partitions exLegacySnap [exBucketAll]).2.2
    exRootRated rfl exMeets rfl rfl

/-! C2 -/

/-- Every associate the categorization marks included holds a rating, so the
description list of the included population has the same length. -/
lemma included_ratingDesc_length (associates : List Associate) :
    ((associates.filter (fun a => categorize a == Category.included)).map
        ratingDesc).length
      = (associates.filter (fun a => categorize a == Category.included)).length := by
  exact List.length_map _ _

/-- C2: in `calculate_comprehensive_distribution`, a zero included count gives
an empty `rating_percentages` mapping, and a positive included count gives
each rating the percentage `count / included_count * 100`, so that the
percentages sum to exactly 100 in rational arithmetic. -/
theorem rating_percentages_sum_to_100 (associates : List Associate)
    (buckets : List DistributionBucket) :
    ((calculate_comprehensive_distribution associates buckets).included_in_distribution_count
        = 0 →
      (calculate_comprehensive_distribution associates buckets).rating_percentages = [])
    ∧ (0 < (calculate_comprehensive_distribution associates
          buckets).included_in_distribution_count →
      (∀ k c, (k, c) ∈ (calculate_comprehensive_distribution associates
            buckets).rating_counts →
        (k, (c : Rat)
            / ((calculate_comprehensive_distribution associates
                buckets).included_in_distribution_count : Rat) * 100)
          ∈ (calculate_comprehensive_distribution associates buckets).rating_percentages)
      ∧ (((calculate_comprehensive_distribution associates
            buckets).rating_percentages.map Prod.snd).sum = 100)) := by
  rw [comp_rating_percentages, comp_included_count, comp_rating_counts]
  constructor
  · intro h
    rw [h]
    simp
  · intro h
    rw [if_pos h]
    constructor
    · intro k c hkc
      exact List.mem_map_of_mem _ hkc
    · rw [countDict_percentage_sum, included_ratingDesc_length]
      have hne : ((associates.filter (fun a => categorize a == Category.included)).length
          : Rat) ≠ 0 := by
        exact_mod_cast Nat.pos_iff_ne_zero.mp h
      rw [div_self hne]
      norm_num

/-! C3 -/

/-- C3: for buckets with `0 ≤ min ≤ max ≤ 100`, each produced
`BucketDistribution` has its three status booleans characterized by strict
comparison with min and max, exactly one of the three is true, and a
percentage equal to min or to max is classified within-target. -/
theorem bucket_status_exactly_one (buckets : List DistributionBucket)
    (included_associates : List Associate) (included_count : Nat)
    (hb : ∀ b ∈ buckets, 0 ≤ b.min_percentage ∧ b.min_percentage ≤ b.max_percentage
      ∧ b.max_percentage ≤ 100) :
    ∀ bd ∈ calculate_bucket_distributions buckets included_associates included_count,
      (bd.is_below_minimum = true ↔ bd.percentage < bd.min_percentage)
      ∧ (bd.is_above_maximum = true ↔ bd.max_percentage < bd.percentage)
      ∧ (bd.is_within_target = true ↔
          (bd.min_percentage ≤ bd.percentage ∧ bd.percentage ≤ bd.max_percentage))
      ∧ ((bd.is_below_minimum = true ∧ bd.is_above_maximum = false
            ∧ bd.is_within_target = false)
        ∨ (bd.is_below_minimum = false ∧ bd.is_above_maximum = true
            ∧ bd.is_within_target = false)
        ∨ (bd.is_below_minimum = false ∧ bd.is_above_maximum = false
            ∧ bd.is_within_target = true))
      ∧ ((bd.percentage = bd.min_percentage ∨ bd.percentage = bd.max_percentage) →
          bd.is_within_target = true) := by
  intro bd hbd
  unfold calculate_bucket_distributions at hbd
  obtain ⟨b, hbmem, rfl⟩ := List.mem_map.mp hbd
  obtain ⟨h0, hminmax, h100⟩ := hb b hbmem
  dsimp only
  set pct : Rat :=
    (if included_count > 0 then
      ((included_associates.filter (fun a =>
          match a.performance_rating with
          | some r => r.distribution_bucket_id == some b.id
          | none => false)).length : Rat) / (included_count : Rat) * 100
    else 0) with hpct
  refine ⟨by simp, by simp [gt_iff_lt], by simp [not_lt, gt_iff_lt], ?_, ?_⟩
  · rcases lt_or_le pct b.min_percentage with hlt | hge
    · have hnab : ¬ b.max_percentage < pct := by linarith
      exact Or.inl (by simp [hlt, hnab, gt_iff_lt])
    · rcases le_or_lt pct b.max_percentage with hle | hgt
      · have h1 : ¬ pct < b.min_percentage := not_lt.mpr hge
        have h2 : ¬ b.max_percentage < pct := not_lt.mpr hle
        exact Or.inr (Or.inr (by simp [h1, h2, gt_iff_lt]))
      · have h1 : ¬ pct < b.min_percentage := by linarith
        exact Or.inr (Or.inl (by simp [h1, hgt, gt_iff_lt]))
  · intro h
    have h1 : ¬ pct < b.min_percentage := by
      rcases h with h | h <;> rw [h] <;> linarith
    have h2 : ¬ b.max_percentage < pct := by
      rcases h with h | h <;> rw [h] <;> linarith
    simp [h1, h2, gt_iff_lt]

/-- Witness for C3: the spec scenario bucket "All" with two included
associates is within target. -/
theorem bucket_status_exactly_one_witness :
    ((⟨1, "All", none, 0, 100, 0, 2, 100, [("Meets", 1), ("Exceeds", 1)], false, false,
        true⟩ : BucketDistribution)).is_within_target = true :=
  ((bucket_status_exactly_one [exBucketAll] [exMgr, exPeer] 2 (by decide))
      _ (by
        norm_num [calculate_bucket_distributions, exBucketAll, exMgr, exPeer, exMeets,
          exExceeds, countDict, ratingDesc]
        decide)).2.2.1.mpr (by norm_num)

/-- Witness for C2: the spec scenario has two included associates and rating
percentages summing to exactly 100. -/
theorem rating_percentages_sum_to_100_witness :
    0 < (calculate_comprehensive_distribution exSnap
        [exBucketAll]).included_in_distribution_count
    ∧ (((calculate_comprehensive_distribution exSnap [exBucketAll]).rating_percentages.map
        Prod.snd).sum = 100) :=
  ⟨by decide, ((rating_percentages_sum_to_100 exSnap [exBucketAll]).2 (by decide)).2⟩

/-! C4 and C10: the hierarchy level resolver. -/

/-- A successful associate lookup returns a member with the requested id. -/
lemma lookupAssociate_mem (associates : List Associate) (i : Nat) (a : Associate)
    (h : lookupAssociate associates i = some a) : a ∈ associates ∧ a.id = i := by
  unfold lookupAssociate at h
  refine ⟨List.mem_of_find?_eq_some h, ?_⟩
  have h2 := List.find?_some h
  simpa using h2

/-- The walk only ever increases the accumulated level. -/
lemma hierarchyLevelAux_le (associates : List Associate) :
    ∀ (fuel : Nat) (cur : Associate) (level : Nat) (seen : List Nat) (l : Nat),
      hierarchyLevelAux associates fuel cur level seen = some l → level ≤ l := by
  intro fuel
  induction fuel with
  | zero =>
    intro cur level seen l h
    simp [hierarchyLevelAux] at h
  | succ f ih =>
    intro cur level seen l h
    unfold hierarchyLevelAux at h
    split at h
    · simp only [Option.some.injEq] at h
      omega
    · split at h
      · simp only [Option.some.injEq] at h
        omega
      · split at h
        · simp at h
        · have := ih _ _ _ _ h
          omega

/-- Fuel bound: as long as the fuel exceeds the number of associate ids not
yet visited, the walk returns a value (never exhausts its fuel), provided ids
are unique and every manager reference resolves. -/
lemma hierarchyLevelAux_isSome (associates : List Associate)
    (hnd : (associates.map (fun a => a.id)).Nodup)
    (href : ∀ b ∈ associates, ∀ m, b.manager_id = some m →
      (lookupAssociate associates m).isSome = true) :
    ∀ (fuel : Nat) (cur : Associate) (level : Nat) (seen : List Nat),
      cur ∈ associates → cur.id ∉ seen →
      ((associates.map (fun a => a.id)).filter (fun i => !(seen.contains i))).length < fuel →
      (hierarchyLevelAux associates fuel cur level seen).isSome = true := by
  intro fuel
  induction fuel with
  | zero =>
    intro cur level seen _ _ hlt
    omega
  | succ f ih =>
    intro cur level seen hcur hnot hlt
    unfold hierarchyLevelAux
    cases hm : cur.manager_id with
    | none => simp
    | some mid =>
      by_cases hs : mid ∈ seen
      · simp [hs]
      · simp only [if_neg hs]
        cases hl : lookupAssociate associates mid with
        | none =>
          exfalso
          have h1 := href cur hcur mid hm
          rw [hl] at h1
          simp at h1
        | some mgr =>
          obtain ⟨hmem, hid⟩ := lookupAssociate_mem associates mid mgr hl
          -- the count of unvisited ids drops strictly when cur.id is added
          have hcurid : cur.id ∈ (associates.map (fun a => a.id)).filter
              (fun i => !(seen.contains i)) := by
            refine List.mem_filter.mpr ⟨List.mem_map_of_mem _ hcur, ?_⟩
            simpa using hnot
          have hdec :
              ((associates.map (fun a => a.id)).filter
                  (fun i => !((cur.id :: seen).contains i))).length
                < ((associates.map (fun a => a.id)).filter
                  (fun i => !(seen.contains i))).length := by
            have hsplit :
                (associates.map (fun a => a.id)).filter
                    (fun i => !((cur.id :: seen).contains i))
                  = ((associates.map (fun a => a.id)).filter
                      (fun i => !(seen.contains i))).filter (fun i => !(i == cur.id)) := by
              rw [List.filter_filter]
              apply List.filter_congr
              intro i _
              by_cases hic : i = cur.id <;> simp [hic, List.contains_cons]
            rw [hsplit]
            apply (List.length_filter_lt_length_iff_exists).mpr
            exact ⟨cur.id, hcurid, by simp⟩
          by_cases hdup : mgr.id ∈ cur.id :: seen
          · -- mgr is cur itself (a direct self-cycle); the next iteration stops
            have hmidcur : mid = cur.id := by
              rcases List.mem_cons.mp hdup with h | h
              · omega
              · exact absurd (hid ▸ h) hs
            have hmgrcur : mgr = cur :=
              List.inj_on_of_nodup_map hnd hmem hcur (show mgr.id = cur.id by omega)
            have hpos := List.length_pos_of_mem hcurid
            obtain ⟨f2, rfl⟩ : ∃ f2, f = f2 + 1 := ⟨f - 1, by omega⟩
            rw [hmgrcur]
            unfold hierarchyLevelAux
            have hmemseen : mid ∈ cur.id :: seen := by
              rw [hmidcur]
              exact List.mem_cons_self _ _
            simp [hm, hmemseen]
          · exact ih mgr (level + 1) (cur.id :: seen) hmem hdup (by omega)

/-- C4: `calculate_hierarchy_level` terminates with a finite level for every
associate of the snapshot — in particular in the presence of manager cycles —
provided ids are unique and every manager reference resolves (the snapshot
consistency the engine assumes). -/
theorem hierarchy_level_terminates (associates : List Associate) (a : Associate)
    (hnd : (associates.map (fun x => x.id)).Nodup)
    (ha : a ∈ associates)
    (href : ∀ b ∈ associates, ∀ m, b.manager_id = some m →
      (lookupAssociate associates m).isSome = true) :
    ∃ level : Nat, calculate_hierarchy_level associates a = some level := by
  have h := hierarchyLevelAux_isSome associates hnd href
    (2 * associates.length + 3) a 0 [] ha (by simp) ?_
  · unfold calculate_hierarchy_level
    exact Option.isSome_iff_exists.mp h
  · have hle : ((associates.map (fun x => x.id)).filter
        (fun i => !(([] : List Nat).contains i))).length ≤ associates.length := by
      calc ((associates.map (fun x => x.id)).filter
            (fun i => !(([] : List Nat).contains i))).length
          ≤ (associates.map (fun x => x.id)).length := List.length_filter_le _ _
        _ = associates.length := List.length_map _ _
    omega

/-- Witness for C4: the two-person manager cycle (Ann manages Ben, Ben
manages Ann) still yields a finite level. -/
theorem hierarchy_level_terminates_witness :
    ∃ level : Nat, calculate_hierarchy_level [exCycleA, exCycleB] exCycleA = some level :=
  hierarchy_level_terminates [exCycleA, exCycleB] exCycleA (by decide) (by decide)
    (by decide)

/-- With unique ids, looking up a member associate by its own id finds it. -/
lemma lookupAssociate_self (associates : List Associate) (a : Associate)
    (hnd : (associates.map (fun x => x.id)).Nodup) (ha : a ∈ associates) :
    lookupAssociate associates a.id = some a := by
  cases hl : lookupAssociate associates a.id with
  | none =>
    exfalso
    unfold lookupAssociate at hl
    have := List.find?_eq_none.mp hl a ha
    simp at this
  | some b =>
    obtain ⟨hmem, hid⟩ := lookupAssociate_mem associates a.id b hl
    have : b = a := List.inj_on_of_nodup_map hnd hmem ha hid
    rw [this]

/-- Two unfoldings of the walk on a direct self-cycle: the first hop is taken
(the visited set is still empty), the second is stopped by the guard. -/
lemma hierarchyLevelAux_self_cycle (associates : List Associate) (a : Associate)
    (hl : lookupAssociate associates a.id = some a)
    (hself : a.manager_id = some a.id) :
    ∀ f : Nat, hierarchyLevelAux associates (f + 2) a 0 [] = some 1 := by
  intro f
  unfold hierarchyLevelAux
  simp only [hself, hl]
  have h1 : a.id ∈ ([] : List Nat) ↔ False := by simp
  rw [if_neg h1.mp]
  unfold hierarchyLevelAux
  simp [hself]

/-- C10: an associate whose manager reference is their own id gets hierarchy
level 1 (not 0) — the first hop of a walk is never stopped by the guard — and
more generally no associate holding a manager reference ever gets level 0. -/
theorem self_cycle_level_one (associates : List Associate) (a : Associate)
    (hnd : (associates.map (fun x => x.id)).Nodup)
    (ha : a ∈ associates)
    (hself : a.manager_id = some a.id) :
    calculate_hierarchy_level associates a = some 1
    ∧ ∀ (b : Associate) (l : Nat), b.manager_id.isSome = true →
        calculate_hierarchy_level associates b = some l → 1 ≤ l := by
  constructor
  · unfold calculate_hierarchy_level
    have h2 : 2 * associates.length + 3 = (2 * associates.length + 1) + 2 := by omega
    rw [h2]
    exact hierarchyLevelAux_self_cycle associates a
      (lookupAssociate_self associates a hnd ha) hself _
  · intro b l hb hcalc
    unfold calculate_hierarchy_level at hcalc
    obtain ⟨F, hF⟩ : ∃ F, 2 * associates.length + 3 = F + 1 :=
      ⟨2 * associates.length + 2, by omega⟩
    rw [hF] at hcalc
    unfold hierarchyLevelAux at hcalc
    split at hcalc
    · rename_i hnone
      rw [hnone] at hb
      simp at hb
    · split at hcalc
      · rename_i hmem2
        simp at hmem2
      · split at hcalc
        · simp at hcalc
        · have := hierarchyLevelAux_le associates F _ 1 _ l hcalc
          omega

/-- Witness for C10 at a one-person snapshot that manages itself. -/
theorem self_cycle_level_one_witness :
    calculate_hierarchy_level [exSelfCycle] exSelfCycle = some 1 :=
  (self_cycle_level_one [exSelfCycle] exSelfCycle (by decide) (by decide) (by decide)).1

/-! C9: per-manager headcount invariants. -/

lemma cmd_manager_details (associates : List Associate)
    (buckets : List DistributionBucket) :
    (calculate_manager_distributions associates buckets).manager_details
      = (associates.filter (fun a => a.is_people_manager)).map
          (managerDetail associates buckets) := rfl

/-- The unrated / excluded / included filters of the per-report if/elif chain
partition the direct-report list. -/
lemma report_filter_length_sum (l : List Associate) :
    (l.filter (fun r => r.performance_rating.isNone)).length
      + (l.filter (fun r =>
          match r.performance_rating with
          | none => false
          | some p => p.excluded_from_distribution)).length
      + (l.filter reportIncluded).length
      = l.length := by
  induction l with
  | nil => rfl
  | cons a t ih =>
    cases hr : a.performance_rating with
    | none =>
      simp only [List.filter_cons, hr, reportIncluded, Option.isNone_none]
      simp [hr, reportIncluded]
      omega
    | some p =>
      cases hp : p.excluded_from_distribution <;>
        simp [List.filter_cons, hr, reportIncluded, hp] <;> omega

/-- C9: in every manager detail, `rated_reports` equals `included_reports`
(an exclusion-flagged report is counted in `excluded_reports`, not in
`rated_reports`), and unrated + excluded + included = total direct reports. -/
theorem manager_detail_count_invariants (associates : List Associate)
    (buckets : List DistributionBucket) :
    ∀ d ∈ (calculate_manager_distributions associates buckets).manager_details,
      d.rated_reports = d.included_reports
      ∧ d.unrated_reports + d.excluded_reports + d.included_reports
          = d.total_direct_reports := by
  intro d hd
  rw [cmd_manager_details] at hd
  obtain ⟨m, _, rfl⟩ := List.mem_map.mp hd
  refine ⟨rfl, ?_⟩
  exact report_filter_length_sum (directReports associates m)

/-- Witness for C9 at the three-person snapshot, at the root manager. -/
theorem manager_detail_count_invariants_witness :
    (managerDetail exSnap [exBucketAll] exRoot).rated_reports
      = (managerDetail exSnap [exBucketAll] exRoot).included_reports :=
  (manager_detail_count_invariants exSnap [exBucketAll]
    (managerDetail exSnap [exBucketAll] exRoot)
    (by rw [cmd_manager_details]; exact List.mem_map_of_mem _ (by decide))).1

/-! C5: the out-of-range flag. -/

lemma dget_cons_eq {α : Type} (k : String) (v : α) (t : List (String × α)) (d0 : α) :
    dget ((k, v) :: t) k d0 = v := by
  simp [dget, List.find?_cons]

lemma dget_cons_ne {α : Type} (k k2 : String) (v : α) (t : List (String × α)) (d0 : α)
    (h : k ≠ k2) : dget ((k, v) :: t) k2 d0 = dget t k2 d0 := by
  simp [dget, List.find?_cons, h]

/-- Reading back a dict whose entries are generated from a key function. -/
lemma dget_keyed_self {α : Type} (L : List String) (g : String → α) (d0 : α) (k : String) :
    dget (L.map (fun x => (x, g x))) k d0 = if k ∈ L then g k else d0 := by
  induction L with
  | nil => simp [dget]
  | cons x t ih =>
    rw [List.map_cons]
    by_cases hxk : x = k
    · subst hxk
      rw [dget_cons_eq]
      simp
    · rw [dget_cons_ne _ _ _ _ _ hxk, ih]
      have hiff : k ∈ t ↔ k ∈ x :: t := by
        constructor
        · exact fun h => List.mem_cons_of_mem _ h
        · intro h
          rcases List.mem_cons.mp h with h | h
          · exact absurd h.symm hxk
          · exact h
      exact if_congr hiff rfl rfl

/-- Reading a counting dict at a key gives the number of occurrences of `k`. -/
lemma dget_countDict (ks : List String) (k : String) :
    dget (countDict ks) k 0 = ks.count k := by
  unfold countDict
  rw [dget_keyed_self]
  by_cases hk : k ∈ ks.dedup
  · simp [hk]
  · rw [if_neg hk]
    have hnk : k ∉ ks := fun h => hk (List.mem_dedup.mpr h)
    exact (List.count_eq_zero.mpr hnk).symm

/-- Reading back a dict keyed by an injective-on-the-list key function at a
member's key yields that member's value. -/
lemma dget_map_keyed {α β : Type} (L : List β) (key : β → String) (val : β → α)
    (d0 : α) (hnd : (L.map key).Nodup) (b : β) (hb : b ∈ L) :
    dget (L.map (fun x => (key x, val x))) (key b) d0 = val b := by
  induction L with
  | nil => cases hb
  | cons x t ih =>
    rw [List.map_cons] at hnd ⊢
    rcases List.mem_cons.mp hb with rfl | hbt
    · rw [dget_cons_eq]
    · have hne : key x ≠ key b := by
        intro he
        have hmem : key b ∈ t.map key := List.mem_map_of_mem _ hbt
        rw [← he] at hmem
        exact (List.nodup_cons.mp hnd).1 hmem
      rw [dget_cons_ne _ _ _ _ _ hne]
      exact ih (List.nodup_cons.mp hnd).2 hbt

/-- C5: a bucket name is flagged in `buckets_out_of_range` for a manager if
and only if that bucket's count for the manager is nonzero and its percentage
over the manager's included reports is strictly outside [min, max]. -/
theorem buckets_out_of_range_iff (associates : List Associate)
    (buckets : List DistributionBucket)
    (hnames : (buckets.map (fun b => b.name)).Nodup) :
    ∀ d ∈ (calculate_manager_distributions associates buckets).manager_details,
      ∀ b ∈ buckets,
        (b.name ∈ d.buckets_out_of_range ↔
          0 < dget d.bucket_counts b.name 0
          ∧ (dget d.bucket_percentages b.name 0 < b.min_percentage
            ∨ b.max_percentage < dget d.bucket_percentages b.name 0)) := by
  intro d hd b hb
  rw [cmd_manager_details] at hd
  obtain ⟨m, _, rfl⟩ := List.mem_map.mp hd
  show b.name ∈ mgrBucketsOutOfRange associates buckets m ↔
    0 < dget (mgrBucketCounts associates buckets m) b.name 0
    ∧ (dget (mgrBucketPercentages associates buckets m) b.name 0 < b.min_percentage
      ∨ b.max_percentage < dget (mgrBucketPercentages associates buckets m) b.name 0)
  by_cases hemp : (includedReportsOf associates m).isEmpty
  · have hnil : includedReportsOf associates m = [] := by
      simpa using hemp
    rw [mgrBucketsOutOfRange, if_pos hemp]
    have hc : dget (mgrBucketCounts associates buckets m) b.name 0 = 0 := by
      rw [mgrBucketCounts, hnil]
      simp [countDict, dget]
    simp [hc]
  · rw [mgrBucketsOutOfRange, if_neg hemp]
    have hpct : dget (mgrBucketPercentages associates buckets m) b.name 0
        = ((dget (mgrBucketCounts associates buckets m) b.name 0 : Nat) : Rat)
          / ((includedReportsOf associates m).length : Rat) * 100 := by
      rw [mgrBucketPercentages, if_neg hemp]
      exact dget_map_keyed buckets (fun b => b.name) _ 0 hnames b hb
    rw [hpct]
    constructor
    · intro h
      obtain ⟨b2, hb2, heq⟩ := List.mem_filterMap.mp h
      split at heq
      · rename_i hcond
        have hname : b2.name = b.name := by simpa using heq
        have hbb : b2 = b := List.inj_on_of_nodup_map hnames hb2 hb hname
        subst hbb
        exact ⟨hcond.2, hcond.1⟩
      · simp at heq
    · intro h
      apply List.mem_filterMap.mpr
      refine ⟨b, hb, ?_⟩
      rw [if_pos ⟨h.2, h.1⟩]

/-- Witness for C5: one bucket with range [60, 60] and a manager whose two
included reports are both in it (percentage 100) is flagged out of range. -/
theorem buckets_out_of_range_iff_witness :
    exRigidX.name ∈ (managerDetail exSnap [exRigidX] exRoot).buckets_out_of_range :=
  ((buckets_out_of_range_iff exSnap [exRigidX] (by decide)
      (managerDetail exSnap [exRigidX] exRoot)
      (by rw [cmd_manager_details]; exact List.mem_map_of_mem _ (by decide))
      exRigidX (by decide)).mpr
    ⟨by decide,
     Or.inr (by
      have hbp : dget (managerDetail exSnap [exRigidX] exRoot).bucket_percentages
          exRigidX.name 0 = ((2 : Nat) : Rat) / ((2 : Nat) : Rat) * 100 := rfl
      rw [hbp]
      norm_num [exRigidX])⟩)

/-! C6: hierarchy level summaries. -/

lemma dget_not_mem {α : Type} (d : List (String × α)) (k : String) (d0 : α)
    (h : k ∉ d.map Prod.fst) : dget d k d0 = d0 := by
  induction d with
  | nil => rfl
  | cons p t ih =>
    rcases p with ⟨pk, pv⟩
    have hne : pk ≠ k := by
      intro he
      exact h (by simp [he])
    rw [dget_cons_ne _ _ _ _ _ hne]
    exact ih (fun hm => h (by simp [hm]))

/-- Updating every entry at a key leaves reads at other keys unchanged. -/
lemma dget_map_update_ne (t : List (String × Nat)) (k : String) (c : Nat) (k2 : String)
    (hne : k2 ≠ k) :
    dget (t.map (fun p => if p.fst == k then (p.fst, p.snd + c) else p)) k2 0
      = dget t k2 0 := by
  induction t with
  | nil => rfl
  | cons p t ih =>
    rcases p with ⟨pk, pv⟩
    rw [List.map_cons]
    by_cases hpk : pk = k
    · subst hpk
      simp only [beq_self_eq_true, if_true]
      rw [dget_cons_ne _ _ _ _ _ (Ne.symm hne), dget_cons_ne _ _ _ _ _ (Ne.symm hne)]
      exact ih
    · simp only [beq_eq_false_iff_ne.mpr hpk, Bool.false_eq_true, if_false]
      by_cases hpk2 : pk = k2
      · subst hpk2
        rw [dget_cons_eq, dget_cons_eq]
      · rw [dget_cons_ne _ _ _ _ _ hpk2, dget_cons_ne _ _ _ _ _ hpk2]
        exact ih

/-- Updating every entry at a present key adds `c` to the read at that key. -/
lemma dget_map_update_eq (t : List (String × Nat)) (k : String) (c : Nat)
    (hk : t.any (fun p => p.fst == k) = true) :
    dget (t.map (fun p => if p.fst == k then (p.fst, p.snd + c) else p)) k 0
      = dget t k 0 + c := by
  induction t with
  | nil => simp at hk
  | cons p t ih =>
    rcases p with ⟨pk, pv⟩
    rw [List.map_cons]
    by_cases hpk : pk = k
    · subst hpk
      simp only [beq_self_eq_true, if_true]
      rw [dget_cons_eq, dget_cons_eq]
    · simp only [beq_eq_false_iff_ne.mpr hpk, Bool.false_eq_true, if_false]
      have hk2 : t.any (fun p => p.fst == k) = true := by
        rcases List.any_eq_true.mp hk with ⟨q, hq, hqk⟩
        rcases List.mem_cons.mp hq with rfl | hqt
        · exact absurd (by simpa using hqk) hpk
        · exact List.any_eq_true.mpr ⟨q, hqt, hqk⟩
      rw [dget_cons_ne _ _ _ _ _ hpk, dget_cons_ne _ _ _ _ _ hpk]
      exact ih hk2

/-- Reading a dict after appending a fresh-key entry at the end. -/
lemma dget_append_single {α : Type} (acc : List (String × α)) (k : String) (c : α)
    (k2 : String) (d0 : α) (hknot : k ∉ acc.map Prod.fst) :
    dget (acc ++ [(k, c)]) k2 d0 = if k2 = k then c else dget acc k2 d0 := by
  induction acc with
  | nil =>
    rw [List.nil_append]
    by_cases hk2 : k2 = k
    · subst hk2
      rw [dget_cons_eq]
      simp
    · rw [dget_cons_ne _ _ _ _ _ (fun he => hk2 he.symm), if_neg hk2]
  | cons p t ih =>
    rcases p with ⟨pk, pv⟩
    have hpkk : pk ≠ k := fun he => hknot (by simp [he])
    have htail : k ∉ t.map Prod.fst := fun hm => hknot (by simp [hm])
    by_cases hpk2 : pk = k2
    · subst hpk2
      rw [List.cons_append, dget_cons_eq, if_neg hpkk, dget_cons_eq]
    · rw [List.cons_append, dget_cons_ne _ _ _ _ _ hpk2, dget_cons_ne _ _ _ _ _ hpk2]
      exact ih htail

/-- Reading a dict after `agg[k] = agg.get(k, 0) + c`. -/
lemma dget_dictInsertAdd (acc : List (String × Nat)) (k : String) (c : Nat)
    (k2 : String) :
    dget (dictInsertAdd acc k c) k2 0
      = dget acc k2 0 + (if k2 = k then c else 0) := by
  unfold dictInsertAdd
  by_cases hany : acc.any (fun p => p.fst == k) = true
  · rw [if_pos hany]
    by_cases hk2 : k2 = k
    · subst hk2
      rw [dget_map_update_eq _ _ _ hany]
      simp
    · rw [dget_map_update_ne _ _ _ _ hk2]
      simp [hk2]
  · rw [if_neg hany]
    have hknot : k ∉ acc.map Prod.fst := by
      intro hmem
      rcases List.mem_map.mp hmem with ⟨p, hp, hpk⟩
      exact hany (List.any_eq_true.mpr ⟨p, hp, by simp [hpk]⟩)
    rw [dget_append_single _ _ _ _ _ hknot]
    by_cases hk2 : k2 = k
    · subst hk2
      rw [if_pos rfl, dget_not_mem _ _ _ hknot]
      simp
    · rw [if_neg hk2]
      simp [hk2]

/-- In a dict with distinct keys, summing the value at a key over the entries
gives `d.get(k, 0)`. -/
lemma sum_if_eq_dget (d : List (String × Nat)) (k : String)
    (hnd : (d.map Prod.fst).Nodup) :
    (d.map (fun p => if k = p.fst then p.snd else 0)).sum = dget d k 0 := by
  induction d with
  | nil => rfl
  | cons p t ih =>
    rcases p with ⟨pk, pv⟩
    rw [List.map_cons, List.sum_cons]
    rw [List.map_cons] at hnd
    by_cases hpk : k = pk
    · subst hpk
      rw [if_pos rfl, dget_cons_eq]
      have hnot : k ∉ t.map Prod.fst := by
        have := List.nodup_cons.mp hnd
        simpa using this.1
      have hz : (t.map (fun p => if k = p.fst then p.snd else 0)).sum = 0 := by
        rw [ih (List.nodup_cons.mp hnd).2]
        exact dget_not_mem t k 0 hnot
      rw [hz]
      simp
    · rw [if_neg hpk, dget_cons_ne _ _ _ _ _ (fun he => hpk he.symm)]
      simpa using ih (List.nodup_cons.mp hnd).2

/-- The keys of a counting dict are distinct. -/
lemma countDict_keys_nodup (ks : List String) :
    ((countDict ks).map Prod.fst).Nodup := by
  unfold countDict
  rw [List.map_map]
  have h1 : (Prod.fst ∘ fun k => (k, ks.count k)) = id := rfl
  rw [h1, List.map_id]
  exact List.nodup_dedup ks

/-- Reading a dict after folding a whole dict into it adds the folded dict's
entry sum at the key. -/
lemma dget_dictAddAll (d : List (String × Nat)) :
    ∀ (acc : List (String × Nat)) (k : String),
      dget (dictAddAll acc d) k 0
        = dget acc k 0 + (d.map (fun p => if k = p.fst then p.snd else 0)).sum := by
  induction d with
  | nil =>
    intro acc k
    simp [dictAddAll]
  | cons p t ih =>
    intro acc k
    have h1 : dictAddAll acc (p :: t) = dictAddAll (dictInsertAdd acc p.fst p.snd) t := rfl
    rw [h1, ih, dget_dictInsertAdd, List.map_cons, List.sum_cons, Nat.add_assoc]

/-- Reading the level-aggregation fold at a key sums the per-manager reads. -/
lemma dget_foldl_dictAddAll (g : ManagerDistributionDetail → List (String × Nat)) :
    ∀ (details : List ManagerDistributionDetail) (acc : List (String × Nat)) (k : String),
      (∀ d ∈ details, ((g d).map Prod.fst).Nodup) →
      dget (details.foldl (fun acc d => dictAddAll acc (g d)) acc) k 0
        = dget acc k 0 + (details.map (fun d => dget (g d) k 0)).sum := by
  intro details
  induction details with
  | nil =>
    intro acc k _
    simp
  | cons d t ih =>
    intro acc k hnd
    rw [List.foldl_cons]
    rw [ih (dictAddAll acc (g d)) k (fun x hx => hnd x (List.mem_cons_of_mem _ hx))]
    rw [dget_dictAddAll]
    rw [sum_if_eq_dget _ _ (hnd d (List.mem_cons_self _ _))]
    rw [List.map_cons, List.sum_cons, Nat.add_assoc]

lemma cmd_hierarchy_summaries (associates : List Associate)
    (buckets : List DistributionBucket) :
    (calculate_manager_distributions associates buckets).hierarchy_summaries
      = (((associates.filter (fun a => a.is_people_manager)).map
            (managerDetail associates buckets)).map (fun d => d.hierarchy_level)).dedup.map
          (fun l => (l, levelSummary l
            (((associates.filter (fun a => a.is_people_manager)).map
                (managerDetail associates buckets)).filter
              (fun d => d.hierarchy_level == l)))) := rfl

lemma levelSummary_rating_counts (l : Nat) (details : List ManagerDistributionDetail) :
    (levelSummary l details).rating_counts
      = details.foldl (fun acc d => dictAddAll acc d.rating_counts) [] := rfl

lemma levelSummary_bucket_counts (l : Nat) (details : List ManagerDistributionDetail) :
    (levelSummary l details).bucket_counts
      = details.foldl (fun acc d => dictAddAll acc d.bucket_counts) [] := rfl

lemma levelSummary_rating_percentages (l : Nat)
    (details : List ManagerDistributionDetail) :
    (levelSummary l details).rating_percentages
      = (if (details.map (fun d => d.included_reports)).sum > 0 then
          (details.foldl (fun acc d => dictAddAll acc d.rating_counts) []).map
            (fun p => (p.fst, (p.snd : Rat)
              / (((details.map (fun d => d.included_reports)).sum : Nat) : Rat) * 100))
        else []) := rfl

lemma levelSummary_bucket_percentages (l : Nat)
    (details : List ManagerDistributionDetail) :
    (levelSummary l details).bucket_percentages
      = (if (details.map (fun d => d.included_reports)).sum > 0 then
          (details.foldl (fun acc d => dictAddAll acc d.bucket_counts) []).map
            (fun p => (p.fst, (p.snd : Rat)
              / (((details.map (fun d => d.included_reports)).sum : Nat) : Rat) * 100))
        else []) := rfl

/-- Every detail produced by the per-manager loop has distinct keys in its
rating and bucket counting dicts. -/
lemma detail_keys_nodup (associates : List Associate) (buckets : List DistributionBucket)
    (d : ManagerDistributionDetail)
    (hd : d ∈ (associates.filter (fun a => a.is_people_manager)).map
        (managerDetail associates buckets)) :
    (d.rating_counts.map Prod.fst).Nodup ∧ (d.bucket_counts.map Prod.fst).Nodup := by
  obtain ⟨m, _, rfl⟩ := List.mem_map.mp hd
  exact ⟨countDict_keys_nodup _, countDict_keys_nodup _⟩

/-- C6: every hierarchy level summary sums the per-manager rating counts,
bucket counts and included-report counts of the managers at that level, and
recomputes each percentage as summed count over summed denominator times 100,
computed only when the summed denominator is positive. -/
theorem level_summary_sums (associates : List Associate)
    (buckets : List DistributionBucket) :
    ∀ p ∈ (calculate_manager_distributions associates buckets).hierarchy_summaries,
      p.snd.manager_count
          = ((calculate_manager_distributions associates buckets).manager_details.filter
              (fun d => d.hierarchy_level == p.fst)).length
      ∧ p.snd.total_included_reports
          = (((calculate_manager_distributions associates buckets).manager_details.filter
              (fun d => d.hierarchy_level == p.fst)).map (fun d => d.included_reports)).sum
      ∧ (∀ k, dget p.snd.rating_counts k 0
          = (((calculate_manager_distributions associates buckets).manager_details.filter
              (fun d => d.hierarchy_level == p.fst)).map
                (fun d => dget d.rating_counts k 0)).sum)
      ∧ (∀ k, dget p.snd.bucket_counts k 0
          = (((calculate_manager_distributions associates buckets).manager_details.filter
              (fun d => d.hierarchy_level == p.fst)).map
                (fun d => dget d.bucket_counts k 0)).sum)
      ∧ (p.snd.total_included_reports = 0 →
          p.snd.rating_percentages = [] ∧ p.snd.bucket_percentages = [])
      ∧ (0 < p.snd.total_included_reports →
          (∀ k c, (k, c) ∈ p.snd.rating_counts →
            (k, (c : Rat) / (p.snd.total_included_reports : Rat) * 100)
              ∈ p.snd.rating_percentages)
          ∧ (∀ k c, (k, c) ∈ p.snd.bucket_counts →
            (k, (c : Rat) / (p.snd.total_included_reports : Rat) * 100)
              ∈ p.snd.bucket_percentages)) := by
  intro p hp
  rw [cmd_hierarchy_summaries] at hp
  obtain ⟨l, _, rfl⟩ := List.mem_map.mp hp
  rw [cmd_manager_details]
  dsimp only
  refine ⟨rfl, rfl, ?_, ?_, ?_, ?_⟩
  · intro k
    rw [levelSummary_rating_counts,
      dget_foldl_dictAddAll (fun d => d.rating_counts) _ [] k
        (fun d hd => (detail_keys_nodup associates buckets d
          (List.mem_filter.mp hd).1).1)]
    simp [dget]
  · intro k
    rw [levelSummary_bucket_counts,
      dget_foldl_dictAddAll (fun d => d.bucket_counts) _ [] k
        (fun d hd => (detail_keys_nodup associates buckets d
          (List.mem_filter.mp hd).1).2)]
    simp [dget]
  · intro h0
    have h0s : ((((associates.filter (fun a => a.is_people_manager)).map
        (managerDetail associates buckets)).filter
          (fun d => d.hierarchy_level == l)).map (fun d => d.included_reports)).sum = 0 := h0
    constructor
    · rw [levelSummary_rating_percentages, if_neg (by omega)]
    · rw [levelSummary_bucket_percentages, if_neg (by omega)]
  · intro hpos
    have hps : 0 < ((((associates.filter (fun a => a.is_people_manager)).map
        (managerDetail associates buckets)).filter
          (fun d => d.hierarchy_level == l)).map (fun d => d.included_reports)).sum := hpos
    constructor
    · intro k c hkc
      rw [levelSummary_rating_counts] at hkc
      rw [levelSummary_rating_percentages, if_pos hps]
      exact List.mem_map_of_mem _ hkc
    · intro k c hkc
      rw [levelSummary_bucket_counts] at hkc
      rw [levelSummary_bucket_percentages, if_pos hps]
      exact List.mem_map_of_mem _ hkc

/-- Witness for C6 at the three-person snapshot: the level-0 summary's count
for rating "Meets" is the sum of the level-0 managers' counts. -/
theorem level_summary_sums_witness :
    dget (levelSummary 0 exDetailsAtZero).rating_counts "Meets" 0
      = (exDetailsAtZero.map (fun d => dget d.rating_counts "Meets" 0)).sum :=
  ((level_summary_sums exSnap [exBucketAll] (0, levelSummary 0 exDetailsAtZero)
      (by
        rw [cmd_hierarchy_summaries]
        exact List.mem_map_of_mem _ (by decide))).2.2.1) "Meets"

/-! C7: bucket configuration validation. -/

lemma validate_errors_eq (ratings : List PerformanceRating)
    (buckets : List DistributionBucket) (hne : buckets.isEmpty = false) :
    (validate_bucket_configuration ratings buckets).fst
      = (if (buckets.map (fun b => b.min_percentage)).sum > 100 then
            [ValidationMessage.minSumExceeds100] else [])
        ++ (if (buckets.map (fun b => b.max_percentage)).sum < 100 then
            [ValidationMessage.maxSumBelow100] else []) := by
  unfold validate_bucket_configuration
  rw [if_neg (by simp [hne])]

lemma validate_empty_snd (ratings : List PerformanceRating) :
    (validate_bucket_configuration ratings ([] : List DistributionBucket)).snd
      = (if (get_unassigned_ratings ratings).isEmpty then []
        else [ValidationMessage.unassignedRatings
          ((get_unassigned_ratings ratings).map (fun r => r.description))]) := rfl

lemma validate_warnings_eq (ratings : List PerformanceRating)
    (buckets : List DistributionBucket) (hne : buckets.isEmpty = false) :
    (validate_bucket_configuration ratings buckets).snd
      = (if (get_unassigned_ratings ratings).isEmpty then []
          else [ValidationMessage.unassignedRatings
            ((get_unassigned_ratings ratings).map (fun r => r.description))])
        ++ (if (buckets.map (fun b => b.min_percentage)).sum < 100
              ∧ 100 < (buckets.map (fun b => b.max_percentage)).sum then []
            else if (buckets.map (fun b => b.min_percentage)).sum = 100
              ∧ (buckets.map (fun b => b.max_percentage)).sum = 100 then
              [ValidationMessage.rigidTargets]
            else []) := by
  unfold validate_bucket_configuration
  rw [if_neg (by simp [hne])]

/-- C7: the validator emits a feasibility error when the bucket minimums sum
above 100 and (for a nonempty bucket list) when the maximums sum below 100;
the rigidity warning appears exactly when both sums equal 100; minimums
summing to 110 (with min ≤ max per bucket) give exactly one feasibility error
and no rigidity warning; and zero buckets produce no feasibility error. -/
theorem validator_feasibility (ratings : List PerformanceRating)
    (buckets : List DistributionBucket) :
    (100 < (buckets.map (fun b => b.min_percentage)).sum →
      ValidationMessage.minSumExceeds100 ∈ (validate_bucket_configuration ratings buckets).fst)
    ∧ (buckets ≠ [] → (buckets.map (fun b => b.max_percentage)).sum < 100 →
      ValidationMessage.maxSumBelow100 ∈ (validate_bucket_configuration ratings buckets).fst)
    ∧ (ValidationMessage.rigidTargets ∈ (validate_bucket_configuration ratings buckets).snd
        ↔ ((buckets.map (fun b => b.min_percentage)).sum = 100
          ∧ (buckets.map (fun b => b.max_percentage)).sum = 100))
    ∧ ((buckets.map (fun b => b.min_percentage)).sum = 110 →
        (∀ b ∈ buckets, b.min_percentage ≤ b.max_percentage) →
        (validate_bucket_configuration ratings buckets).fst
            = [ValidationMessage.minSumExceeds100]
          ∧ ValidationMessage.rigidTargets
              ∉ (validate_bucket_configuration ratings buckets).snd)
    ∧ (buckets = [] → (validate_bucket_configuration ratings buckets).fst = []) := by
  by_cases hbe : buckets.isEmpty = true
  · have hbnil : buckets = [] := List.isEmpty_iff.mp hbe
    subst hbnil
    refine ⟨?_, ?_, ?_, ?_, ?_⟩
    · intro h
      rw [List.map_nil, List.sum_nil] at h
      norm_num at h
    · intro hne
      exact absurd rfl hne
    · constructor
      · intro hmem
        exfalso
        rw [validate_empty_snd ratings] at hmem
        split_ifs at hmem <;> simp at hmem
      · rintro ⟨h1, _⟩
        rw [List.map_nil, List.sum_nil] at h1
        norm_num at h1
    · intro h
      rw [List.map_nil, List.sum_nil] at h
      norm_num at h
    · intro _
      rfl
  · have hne : buckets.isEmpty = false := by
      cases h : buckets.isEmpty
      · rfl
      · exact absurd h hbe
    refine ⟨?_, ?_, ?_, ?_, ?_⟩
    · intro h
      rw [validate_errors_eq ratings buckets hne, if_pos h]
      simp
    · intro _ h
      rw [validate_errors_eq ratings buckets hne]
      apply List.mem_append.mpr
      right
      rw [if_pos h]
      simp
    · rw [validate_warnings_eq ratings buckets hne]
      constructor
      · intro hmem
        rcases List.mem_append.mp hmem with hm | hm
        · split_ifs at hm <;> simp at hm
        · split_ifs at hm with h1 h2
          · simp at hm
          · exact h2
          · simp at hm
      · rintro ⟨h1, h2⟩
        apply List.mem_append.mpr
        right
        rw [if_neg (by rw [h1]; simp), if_pos ⟨h1, h2⟩]
        simp
    · intro h110 hminmax
      have hmax : (110 : Rat) ≤ (buckets.map (fun b => b.max_percentage)).sum := by
        rw [← h110]
        exact List.sum_le_sum hminmax
      constructor
      · rw [validate_errors_eq ratings buckets hne,
          if_pos (by rw [h110]; norm_num),
          if_neg (by intro hlt; linarith)]
        simp
      · rw [validate_warnings_eq ratings buckets hne]
        intro hmem
        rcases List.mem_append.mp hmem with hm | hm
        · split_ifs at hm <;> simp at hm
        · split_ifs at hm with h1 h2
          · simp at hm
          · rw [h2.1] at h110
            norm_num at h110
          · simp at hm
    · intro h
      rw [h] at hne
      simp at hne

/-- Witness for C7: two buckets with minimums 60 and 50 (sum 110, each
min ≤ max) give exactly the one feasibility error and no rigidity warning. -/
theorem validator_feasibility_witness :
    (validate_bucket_configuration [] [exRigidX, exRigidY]).fst
        = [ValidationMessage.minSumExceeds100]
      ∧ ValidationMessage.rigidTargets
          ∉ (validate_bucket_configuration [] [exRigidX, exRigidY]).snd :=
  (validator_feasibility [] [exRigidX, exRigidY]).2.2.2.1
    (by norm_num [exRigidX, exRigidY]) (by decide)

/-! C8: denominators of the percentage computations. -/

/-- In the two-person snapshot with a rated root, the legacy organization-wide
distribution reports "Meets" at 50 percent. -/
lemma legacy_meets_mem :
    ("Meets", (50 : Rat)) ∈ calculate_rating_distribution_percentages exLegacySnap := by
  have h : calculate_rating_distribution_percentages exLegacySnap
      = [("Meets", ((1 : Nat) : Rat) / ((2 : Nat) : Rat) * 100),
         ("Exceeds", ((1 : Nat) : Rat) / ((2 : Nat) : Rat) * 100)] := rfl
  rw [h]
  have h2 : ((1 : Nat) : Rat) / ((2 : Nat) : Rat) * 100 = 50 := by norm_num
  rw [h2]
  simp

/-- C8 counterexample: it is not true that every organization-wide rating
percentage divides an included count by the INCLUDED population —
`calculate_rating_distribution_percentages` reports 50 percent for "Meets" on
a snapshot whose INCLUDED population is one person holding no "Meets" rating
(the rating belongs to a root, and roots are outside INCLUDED). -/
theorem legacy_percentage_not_included_denominator :
    ¬ (∀ (associates : List Associate) (k : String) (p : Rat),
        (k, p) ∈ calculate_rating_distribution_percentages associates →
        p = ((dget (calculate_comprehensive_distribution associates []).rating_counts k 0
              : Nat) : Rat)
          / (((calculate_comprehensive_distribution associates
              []).included_in_distribution_count : Nat) : Rat) * 100) := by
  intro hclaim
  have h := hclaim exLegacySnap "Meets" 50 legacy_meets_mem
  have e1 : dget (calculate_comprehensive_distribution exLegacySnap []).rating_counts
      "Meets" 0 = 0 := rfl
  have e2 : (calculate_comprehensive_distribution exLegacySnap
      []).included_in_distribution_count = 1 := rfl
  rw [e1, e2] at h
  norm_num at h

/-- The count recorded for a key present in a counting dict. -/
lemma countDict_mem (ks : List String) (k : String) (c : Nat)
    (h : (k, c) ∈ countDict ks) : c = ks.count k := by
  unfold countDict at h
  obtain ⟨x, _, heq⟩ := List.mem_map.mp h
  simp only [Prod.mk.injEq] at heq
  obtain ⟨h1, h2⟩ := heq
  subst h1
  exact h2.symm

/-- C8 amended: the comprehensive distribution, the per-manager details and
the hierarchy level summaries all divide their percentages by the relevant
INCLUDED population, while the legacy `calculate_rating_distribution_percentages`
divides by `get_total_headcount` — the count of all rated associates,
including roots and exclusion-flagged ratings. -/
theorem percentages_use_included_denominator (associates : List Associate)
    (buckets : List DistributionBucket) :
    (∀ k p, (k, p) ∈ (calculate_comprehensive_distribution associates
          buckets).rating_percentages →
      ∃ c, (k, c) ∈ (calculate_comprehensive_distribution associates buckets).rating_counts
        ∧ p = (c : Rat)
          / ((calculate_comprehensive_distribution associates
              buckets).included_in_distribution_count : Rat) * 100)
    ∧ (∀ bd ∈ (calculate_comprehensive_distribution associates
          buckets).bucket_distributions,
        0 < (calculate_comprehensive_distribution associates
            buckets).included_in_distribution_count →
        bd.percentage = (bd.count : Rat)
          / ((calculate_comprehensive_distribution associates
              buckets).included_in_distribution_count : Rat) * 100)
    ∧ (∀ d ∈ (calculate_manager_distributions associates buckets).manager_details,
        (∀ k p, (k, p) ∈ d.rating_percentages →
          ∃ c, (k, c) ∈ d.rating_counts
            ∧ p = (c : Rat) / (d.included_reports : Rat) * 100)
        ∧ (∀ k p, (k, p) ∈ d.bucket_percentages →
          p = ((dget d.bucket_counts k 0 : Nat) : Rat)
            / (d.included_reports : Rat) * 100))
    ∧ (∀ q ∈ (calculate_manager_distributions associates buckets).hierarchy_summaries,
        (∀ k p, (k, p) ∈ q.snd.rating_percentages →
          ∃ c, (k, c) ∈ q.snd.rating_counts
            ∧ p = (c : Rat) / (q.snd.total_included_reports : Rat) * 100)
        ∧ (∀ k p, (k, p) ∈ q.snd.bucket_percentages →
          ∃ c, (k, c) ∈ q.snd.bucket_counts
            ∧ p = (c : Rat) / (q.snd.total_included_reports : Rat) * 100))
    ∧ (∀ k p, (k, p) ∈ calculate_rating_distribution_percentages associates →
        p = (((associates.filter (fun a => a.performance_rating.isSome)).map
            ratingDesc).count k : Rat) / (get_total_headcount associates : Rat) * 100) := by
  refine ⟨?_, ?_, ?_, ?_, ?_⟩
  · intro k p hkp
    rw [comp_rating_percentages] at hkp
    rw [comp_rating_counts, comp_included_count]
    split at hkp
    · obtain ⟨q, hq, heq⟩ := List.mem_map.mp hkp
      rcases q with ⟨qk, qc⟩
      simp only [Prod.mk.injEq] at heq
      obtain ⟨h1, h2⟩ := heq
      subst h1
      exact ⟨qc, hq, h2.symm⟩
    · simp at hkp
  · intro bd hbd hpos
    rw [comp_included_count] at hpos
    rw [comp_bucket_distributions] at hbd
    unfold calculate_bucket_distributions at hbd
    obtain ⟨b, _, rfl⟩ := List.mem_map.mp hbd
    rw [comp_included_count]
    dsimp only
    rw [if_pos hpos]
  · intro d hd
    rw [cmd_manager_details] at hd
    obtain ⟨m, _, rfl⟩ := List.mem_map.mp hd
    constructor
    · intro k p hkp
      show ∃ c, (k, c) ∈ mgrRatingCounts associates m ∧ _
      have hkp2 : (k, p) ∈ mgrRatingPercentages associates m := hkp
      rw [mgrRatingPercentages] at hkp2
      split at hkp2
      · simp at hkp2
      · obtain ⟨q, hq, heq⟩ := List.mem_map.mp hkp2
        rcases q with ⟨qk, qc⟩
        simp only [Prod.mk.injEq] at heq
        obtain ⟨h1, h2⟩ := heq
        subst h1
        exact ⟨qc, hq, h2.symm⟩
    · intro k p hkp
      have hkp2 : (k, p) ∈ mgrBucketPercentages associates buckets m := hkp
      rw [mgrBucketPercentages] at hkp2
      split at hkp2
      · simp at hkp2
      · obtain ⟨b, _, heq⟩ := List.mem_map.mp hkp2
        simp only [Prod.mk.injEq] at heq
        obtain ⟨h1, h2⟩ := heq
        subst h1
        exact h2.symm
  · intro q hq
    rw [cmd_hierarchy_summaries] at hq
    obtain ⟨l, _, rfl⟩ := List.mem_map.mp hq
    constructor
    · intro k p hkp
      have hkp2 := hkp
      rw [levelSummary_rating_percentages] at hkp2
      split at hkp2
      · obtain ⟨q2, hq2, heq⟩ := List.mem_map.mp hkp2
        rcases q2 with ⟨qk, qc⟩
        simp only [Prod.mk.injEq] at heq
        obtain ⟨h1, h2⟩ := heq
        subst h1
        exact ⟨qc, hq2, h2.symm⟩
      · simp at hkp2
    · intro k p hkp
      have hkp2 := hkp
      rw [levelSummary_bucket_percentages] at hkp2
      split at hkp2
      · obtain ⟨q2, hq2, heq⟩ := List.mem_map.mp hkp2
        rcases q2 with ⟨qk, qc⟩
        simp only [Prod.mk.injEq] at heq
        obtain ⟨h1, h2⟩ := heq
        subst h1
        exact ⟨qc, hq2, h2.symm⟩
      · simp at hkp2
  · intro k p hkp
    rw [show calculate_rating_distribution_percentages associates
        = (if get_total_headcount associates = 0 then []
          else (get_associates_by_rating associates).map (fun p =>
            (p.fst, (p.snd : Rat) / (get_total_headcount associates : Rat) * 100)))
      from rfl] at hkp
    split at hkp
    · simp at hkp
    · obtain ⟨q, hq, heq⟩ := List.mem_map.mp hkp
      rcases q with ⟨qk, qc⟩
      simp only [Prod.mk.injEq] at heq
      obtain ⟨h1, h2⟩ := heq
      subst h1
      rw [← h2]
      rw [countDict_mem _ _ _ hq]

/-- Witness for C8: on the rated-root snapshot the legacy "Meets" percentage
equals the all-rated-count quotient `1 / 2 × 100`. -/
theorem percentages_use_included_denominator_witness :
    (50 : Rat) = (((exLegacySnap.filter (fun a => a.performance_rating.isSome)).map
        ratingDesc).count "Meets" : Rat) / (get_total_headcount exLegacySnap : Rat) * 100 :=
  (percentages_use_included_denominator exLegacySnap []).2.2.2.2 "Meets" 50
    legacy_meets_mem
